import Mathlib

/-!
# Verification of the pixviz ROI frame-processing pipeline

Shallow embedding of the core of `src/pixviz`:

* `compute_pixel_intensity` (core.py / roi.py): grayscale reduction and
  mean/median statistic over a cropped pixel region;
* `process_single_frame` and `FrameProcessor.run` (ui_components.py): the
  batch scanner that reads every frame, samples every ROI and fills a
  preallocated NaN matrix;
* `VideoGraphicsView.process_frame` (ui_components.py): the realtime tick;
* `RoiSettingsDialog.edit` (ui_components.py) and
  `VideoLoaderApp.show_roi_settings_dialog` (main.py): duplicate-name
  rejection at ROI commit time;
* `VideoLoaderApp._reload` (main_gui.py) and `PixVizResult` (roi.py):
  reload of a persisted result.

Conventions of the embedding:

* Python floats are modelled as `ℚ`; a NaN cell of the preallocated numpy
  series is modelled as `none : Option ℚ`, a computed value as `some v`.
* A Python value that may be `None` (e.g. the fall-through return of
  `compute_pixel_intensity`) is an inner `Option`.
* A raised exception is `Except.error`; the error constructors name the
  Python exception that the corresponding library call raises.
* The external video transport (`cv2.VideoCapture.read`) is modelled as a
  map `frames : ℕ → Option Frame` giving the outcome of the read performed
  in loop iteration `i`; `none` is a failed read (`ret == False`).
* `cv2.warpAffine` (the full-frame rotation used for ROIs with a nonzero
  angle) is an external library primitive; it is modelled as an
  uninterpreted parameter `rot : RotFn` and all theorems quantify over it.
-/

namespace PixViz

/-- ROI names are Python strings. -/
abbrev RoiName := String

/-- One pixel, three 8-bit channels (channel order depends on context:
frames decoded by cv2 are BGR, `compute_pixel_intensity` expects RGB). -/
abbrev Pixel := ℕ × ℕ × ℕ

/-- A decoded frame: a list of rows of pixels (numpy array of shape
`(height, width, 3)`). -/
abbrev Frame := List (List Pixel)

/-- The exceptions that can be raised by the embedded code paths. -/
inductive PyErr where
  /-- `cv2.error`: `cv2.cvtColor` rejects an empty input array. -/
  | cvError
  /-- `TypeError`: numpy refuses to store Python `None` into a float array. -/
  | typeError
  /-- `ZeroDivisionError`: division by a zero view dimension. -/
  | zeroDivError
deriving DecidableEq

/-- Python's `int()` applied to a float: truncation toward zero.
On `ℚ` this is `num.tdiv den` (T-division truncates toward zero and the
denominator is positive). -/
def pyInt (q : ℚ) : ℤ := q.num.tdiv q.den

/-- Normalization of one Python slice endpoint for a sequence of length
`n`: negative indices count from the end, then the result is clamped to
`[0, n]`. -/
def pyBound (n : ℕ) (i : ℤ) : ℕ :=
  if i < 0 then (i + n).toNat else min i.toNat n

/-- Python slicing `xs[lo:hi]` (step 1). -/
def pySlice (lo hi : ℤ) (xs : List α) : List α :=
  let a := pyBound xs.length lo
  let b := pyBound xs.length hi
  (xs.drop a).take (b - a)

/-- `frame[top:bottom, left:right]`: numpy 2-d slicing of a frame. -/
def crop_frame (f : Frame) (top bottom left right : ℤ) : Frame :=
  (pySlice top bottom f).map (pySlice left right)

/-- `cv2.cvtColor(frame, cv2.COLOR_BGR2RGB)`: swap the first and third
channel of every pixel. -/
def bgr2rgb (f : Frame) : Frame :=
  f.map (List.map (fun p => (p.2.2, p.2.1, p.1)))

/-- `cv2.cvtColor(img, cv2.COLOR_RGB2GRAY)` on one RGB pixel: the standard
luminance transform `0.299 R + 0.587 G + 0.114 B`, rounded to an 8-bit
value. -/
def grayVal (p : Pixel) : ℕ :=
  (299 * p.1 + 587 * p.2.1 + 114 * p.2.2 + 500) / 1000

/-- `numpy.mean` over the listed values. -/
def listMean (xs : List ℕ) : ℚ := (xs.sum : ℚ) / (xs.length : ℚ)

/-- `numpy.median` over the listed values: middle element of the sorted
list, or the average of the two middle elements for an even count. -/
def listMedian (xs : List ℕ) : ℚ :=
  let s := List.insertionSort (· ≤ ·) xs
  if xs.length % 2 = 1 then ((s.getD (xs.length / 2) 0 : ℕ) : ℚ)
  else (((s.getD (xs.length / 2 - 1) 0 : ℕ) : ℚ) + ((s.getD (xs.length / 2) 0 : ℕ) : ℚ)) / 2

/-- `pixviz.core.compute_pixel_intensity` (also duplicated in
`pixviz/roi.py`) applied to an ndarray crop of a decoded frame (the
ndarray branch of the `isinstance` dispatch; the crop of a 3-d array is
always 3-d, so the `TypeError` branch is unreachable from the embedded
callers).  `cv2.cvtColor` raises `cv2.error` on an empty region; after the
grayscale conversion the statistic dispatch returns the mean for
`'mean'`, the median for `'median'`, and falls through (Python `None`,
modelled as `Option.none`) for any other string. -/
def compute_pixel_intensity (image : Frame) (func : String) : Except PyErr (Option ℚ) :=
  if image.flatten.isEmpty then Except.error PyErr.cvError
  else
    let gray := image.flatten.map grayVal
    if func = "mean" then Except.ok (some (listMean gray))
    else if func = "median" then Except.ok (some (listMedian gray))
    else Except.ok none

/-- The geometry of a `QRectF` as stored in a `QGraphicsRectItem`:
`(left, top, width, height)` in view coordinates. -/
structure RectF where
  left : ℚ
  top : ℚ
  width : ℚ
  height : ℚ
deriving DecidableEq

/-- `QRectF.right()` is `left + width`. -/
def RectF.right (r : RectF) : ℚ := r.left + r.width

/-- `QRectF.bottom()` is `top + height`. -/
def RectF.bottom (r : RectF) : ℚ := r.top + r.height

/-- `pixviz.roi.RoiLabelObject`, restricted to the fields read by the
frame-processing pipeline: the committed name, the rectangle of
`rect_item`, the accumulated rotation `angle` and the statistic `func`.
At every insertion site of the application the dictionary key of the ROI
collection equals the object's `name`, so the collection is embedded as a
list of objects keyed by their `name` field, in insertion order. -/
structure RoiLabelObject where
  name : RoiName
  rect : RectF
  angle : ℚ
  func : String
deriving DecidableEq

/-- The external `cv2.warpAffine` rotation primitive: full frame, angle in
degrees, integer center.  Uninterpreted: every theorem quantifies over it. -/
abbrev RotFn := Frame → ℚ → ℤ × ℤ → Frame

/-- Width of a decoded frame (`frame.shape[1]`). -/
def frame_width (f : Frame) : ℕ := (f.headD []).length

/-- Height of a decoded frame (`frame.shape[0]`). -/
def frame_height (f : Frame) : ℕ := f.length

/-- The two scale factors of `process_single_frame`:
`factor_width = origin_width / video_item_size[0]` and
`factor_height = origin_height / video_item_size[1]`. -/
def scale_factors (f : Frame) (view : ℚ × ℚ) : ℚ × ℚ :=
  ((frame_width f : ℚ) / view.1, (frame_height f : ℚ) / view.2)

/-- The integer crop bounds computed per ROI by `process_single_frame`:
`top = int(rect.top() * factor_height)`, `bottom = int(rect.bottom() *
factor_height)`, `left = int(rect.left() * factor_width)`, `right =
int(rect.right() * factor_width)`.  Returned as
`(top, bottom, left, right)`. -/
def roi_bounds (rect : RectF) (factor_width factor_height : ℚ) : ℤ × ℤ × ℤ × ℤ :=
  (pyInt (rect.top * factor_height), pyInt (rect.bottom * factor_height),
   pyInt (rect.left * factor_width), pyInt (rect.right * factor_width))

/-- The cropped region handed to `compute_pixel_intensity` for one ROI:
for `angle != 0` the whole frame is first rotated by `cv2.warpAffine`
about the scaled center `(int((left+right)/2), int((top+bottom)/2))`,
then both paths crop `[top:bottom, left:right]`. -/
def roi_region (rot : RotFn) (frame : Frame) (fw fh : ℚ) (roi : RoiLabelObject) : Frame :=
  let b := roi_bounds roi.rect fw fh
  if roi.angle ≠ 0 then
    let center := (pyInt (((b.2.2.1 + b.2.2.2 : ℤ) : ℚ) / 2), pyInt (((b.1 + b.2.1 : ℤ) : ℚ) / 2))
    crop_frame (rot frame roi.angle center) b.1 b.2.1 b.2.2.1 b.2.2.2
  else
    crop_frame frame b.1 b.2.1 b.2.2.1 b.2.2.2

/-- The per-ROI loop body of `process_single_frame`: builds the `sig`
mapping in iteration order.  There is no `try`/`except` inside this loop,
so the first exception raised while computing one ROI aborts the whole
call and discards the values already computed for earlier ROIs. -/
def roiLoop (rot : RotFn) (frame : Frame) (fw fh : ℚ) :
    List RoiLabelObject → Except PyErr (List (RoiName × Option ℚ))
  | [] => Except.ok []
  | roi :: rest =>
    match compute_pixel_intensity (roi_region rot frame fw fh roi) roi.func with
    | Except.error e => Except.error e
    | Except.ok v =>
      match roiLoop rot frame fw fh rest with
      | Except.error e => Except.error e
      | Except.ok sig => Except.ok ((roi.name, v) :: sig)

/-- `pixviz.ui_components.process_single_frame`: reads one frame from the
capture (outcome `readResult`); on `ret == False` it returns Python
`None` (the outer `Option.none`); otherwise it converts BGR to RGB,
computes the scale factors (raising `ZeroDivisionError` on a zero view
dimension) and runs the per-ROI loop. -/
def process_single_frame (rot : RotFn) (rois : List RoiLabelObject)
    (readResult : Option Frame) (view : ℚ × ℚ) :
    Option (Except PyErr (List (RoiName × Option ℚ))) :=
  match readResult with
  | none => none
  | some raw =>
    if view.1 = 0 ∨ view.2 = 0 then some (Except.error PyErr.zeroDivError)
    else
      let frame := bgr2rgb raw
      some (roiLoop rot frame (scale_factors frame view).1 (scale_factors frame view).2 rois)

/-- The preallocated result dictionary of `FrameProcessor.__init__`:
`{name: np.full(total_frames, np.nan) for name in rois.keys()}`.
A series is a list of cells; a cell is `none` (NaN) or `some v`. -/
abbrev ProcMap := List (RoiName × List (Option ℚ))

/-- `FrameProcessor.__init__` preallocation. -/
def prealloc (rois : List RoiLabelObject) (F : ℕ) : ProcMap :=
  rois.map (fun roi => (roi.name, List.replicate F (none : Option ℚ)))

/-- `self.proc_results[name][frame_number] = val` for one dictionary entry
(the dictionary has one array per key; the list embedding updates every
entry carrying that key, which coincides on key-unique maps). -/
def setCell (proc : ProcMap) (name : RoiName) (i : ℕ) (v : ℚ) : ProcMap :=
  proc.map (fun p => if p.1 = name then (p.1, p.2.set i (some v)) else p)

/-- The write loop of `FrameProcessor.run`:
`for name, val in result.items(): self.proc_results[name][frame_number] = val`.
A missing key raises `KeyError` and a `None` value raises `TypeError`;
either aborts the remaining writes of this frame, keeping the writes
already performed (the returned flag records whether all writes
succeeded, i.e. whether control reaches `self.progress.emit`). -/
def writeSig (proc : ProcMap) (i : ℕ) :
    List (RoiName × Option ℚ) → ProcMap × Bool
  | [] => (proc, true)
  | (n, v) :: rest =>
    if n ∈ proc.map Prod.fst then
      match v with
      | some x => writeSig (setCell proc n i x) i rest
      | none => (proc, false)
    else (proc, false)

/-- The observable state of one batch run: the result dictionary and the
list of `progress` signal payloads emitted so far, in emission order. -/
structure RunOut where
  proc : ProcMap
  progress : List ℕ
deriving DecidableEq

/-- One iteration of the `for frame_number in range(self.total_frames)`
loop of `FrameProcessor.run`.  The body is a single `try`: a failed read
makes `result` Python `None`, so `result.items()` raises
`AttributeError`; any exception raised by `process_single_frame`
propagates here as well.  Every exception is caught, logged and the loop
continues; `self.progress.emit(frame_number)` runs only when the whole
body - including all writes - succeeded. -/
def runStep (rot : RotFn) (roisAt : ℕ → List RoiLabelObject)
    (frames : ℕ → Option Frame) (view : ℚ × ℚ) (st : RunOut) (i : ℕ) : RunOut :=
  match process_single_frame rot (roisAt i) (frames i) view with
  | some (Except.ok sig) =>
    let pr := writeSig st.proc i sig
    ⟨pr.1, if pr.2 then st.progress ++ [i] else st.progress⟩
  | _ => st

/-- The loop of `FrameProcessor.run` over an explicit list of frame
indices, starting from a given state. -/
def runFrom (rot : RotFn) (roisAt : ℕ → List RoiLabelObject)
    (frames : ℕ → Option Frame) (view : ℚ × ℚ) (st : RunOut) (L : List ℕ) : RunOut :=
  L.foldl (runStep rot roisAt frames view) st

/-- `FrameProcessor`: construction (`__init__` captures `total_frames`,
`view_size` and preallocates from the ROI dictionary as it is at
construction time, `initRois`) followed by `run`.  `self.rois` stores a
reference to the application's shared dictionary, so each loop iteration
`i` reads the dictionary state current at that moment, `roisAt i`.
After the loop the `results` signal is emitted exactly once with the
final `proc`. -/
def runProc (rot : RotFn) (initRois : List RoiLabelObject)
    (roisAt : ℕ → List RoiLabelObject) (frames : ℕ → Option Frame)
    (F : ℕ) (view : ℚ × ℚ) : RunOut :=
  runFrom rot roisAt frames view ⟨prealloc initRois F, []⟩ (List.range F)

/-- A batch run during which nobody mutates the shared ROI dictionary:
every iteration sees the construction-time collection. -/
def run_fixed (rot : RotFn) (rois : List RoiLabelObject)
    (frames : ℕ → Option Frame) (F : ℕ) (view : ℚ × ℚ) : RunOut :=
  runProc rot rois (fun _ => rois) frames F view

/-- Lookup of one series in the result dictionary (first entry with the
given key; `[]` when absent). -/
def getSeriesP (proc : ProcMap) (name : RoiName) : List (Option ℚ) :=
  match proc with
  | [] => []
  | p :: rest => if p.1 = name then p.2 else getSeriesP rest name

/-- The cell of one ROI's series at one frame column: `none` when the
series does not reach the column, `some none` for NaN, `some (some v)`
for a stored value. -/
def cellAt (proc : ProcMap) (name : RoiName) (i : ℕ) : Option (Option ℚ) :=
  (getSeriesP proc name)[i]?

/-- Specification of the final value that the write loop leaves in the
cell of `name` at the current column, given the `sig` entries in
iteration order, the key set `K` of the result dictionary and the value
`acc` the cell held before the loop (writes stop at the first entry with
a missing key or a `None` value). -/
def sigCell (K : List RoiName) (name : RoiName) :
    List (RoiName × Option ℚ) → Option ℚ → Option ℚ
  | [], acc => acc
  | (n, v) :: rest, acc =>
    if n ∈ K then
      match v with
      | some x => sigCell K name rest (if n = name then some x else acc)
      | none => acc
    else acc

/-- Whether the write loop runs to completion on `sig` (all keys present
in `K`, no `None` values before the end). -/
def sigOK (K : List RoiName) : List (RoiName × Option ℚ) → Bool
  | [] => true
  | (n, v) :: rest =>
    if n ∈ K then
      match v with
      | some _ => sigOK K rest
      | none => false
    else false

/-- The value the run leaves at column `i` of a key's series: `none`
(NaN) unless iteration `i` produced a result dictionary and the write
loop reached a write for this key. -/
def iterCell (rot : RotFn) (roisAt : ℕ → List RoiLabelObject)
    (frames : ℕ → Option Frame) (view : ℚ × ℚ) (K : List RoiName)
    (name : RoiName) (i : ℕ) : Option ℚ :=
  match process_single_frame rot (roisAt i) (frames i) view with
  | some (Except.ok sig) => sigCell K name sig none
  | _ => none

/-- Whether loop iteration `i` runs to completion without an exception
(and hence emits its progress event). -/
def iterOK (rot : RotFn) (roisAt : ℕ → List RoiLabelObject)
    (frames : ℕ → Option Frame) (view : ℚ × ℚ) (K : List RoiName) (i : ℕ) : Bool :=
  match process_single_frame rot (roisAt i) (frames i) view with
  | some (Except.ok sig) => sigOK K sig
  | _ => false

/-! ## Realtime tick (`VideoGraphicsView.process_frame`, ui_components.py) -/

/-- The state touched by a realtime tick: the capture read position and
the `PlotView` realtime buffers (`x_data`, `y_data`, per ROI name). -/
structure RtState where
  capPos : ℕ
  xData : List (RoiName × List ℕ)
  yData : List (RoiName × List (Option ℚ))
deriving DecidableEq

/-- `PlotView.update_realtime_plot`: when `realtime_proc` is set, append
one sample per ROI name that has registered axes (`x_data` gets the
current length, `y_data` the value); unknown names are skipped. -/
def update_realtime_plot (realtimeProc : Bool)
    (xData : List (RoiName × List ℕ)) (yData : List (RoiName × List (Option ℚ)))
    (values : List (RoiName × Option ℚ)) :
    List (RoiName × List ℕ) × List (RoiName × List (Option ℚ)) :=
  if realtimeProc then
    values.foldl
      (fun st nv =>
        if nv.1 ∈ st.1.map Prod.fst ∧ nv.1 ∈ st.2.map Prod.fst then
          (st.1.map (fun p => if p.1 = nv.1 then (p.1, p.2 ++ [p.2.length]) else p),
           st.2.map (fun p => if p.1 = nv.1 then (p.1, p.2 ++ [nv.2]) else p))
        else st)
      (xData, yData)
  else (xData, yData)

/-- `VideoGraphicsView.process_frame`: guarded by
`len(self.rois) != 0 and not self.drawing_roi`; inside the guard it calls
`process_single_frame(self.rois, self.app.cap, self.app.video_item_size)`
(advancing the capture position when the read succeeds) and returns the
signal payload to emit, if any.  Outside the guard nothing happens. -/
def video_view_process_frame (rot : RotFn) (rois : List RoiLabelObject)
    (drawing_roi : Bool) (frames : ℕ → Option Frame) (view : ℚ × ℚ)
    (st : RtState) : RtState × Option (Except PyErr (List (RoiName × Option ℚ))) :=
  if rois.length ≠ 0 ∧ drawing_roi = false then
    match frames st.capPos with
    | none => (st, none)
    | some f =>
      ({ st with capPos := st.capPos + 1 }, process_single_frame rot rois (some f) view)
  else (st, none)

/-- One realtime tick end to end: `process_frame` followed by the
connected `update_realtime_plot` slot when a sample signal was emitted
(an `Except.error` payload models the exception propagating out of the
tick before any emit). -/
def realtime_tick (rot : RotFn) (rois : List RoiLabelObject) (drawing_roi : Bool)
    (frames : ℕ → Option Frame) (view : ℚ × ℚ) (realtimeProc : Bool)
    (st : RtState) : RtState × Option (Except PyErr (List (RoiName × Option ℚ))) :=
  let r := video_view_process_frame rot rois drawing_roi frames view st
  match r.2 with
  | some (Except.ok sig) =>
    let p := update_realtime_plot realtimeProc r.1.xData r.1.yData sig
    (⟨r.1.capPos, p.1, p.2⟩, r.2)
  | _ => r

/-! ## ROI commit and duplicate-name rejection -/

/-- `pixviz.output.RoiType` (the record committed by `main.py`). -/
structure RoiType where
  name : RoiName
  selection_area : RectF
  function : String
deriving DecidableEq

/-- The commit path of `VideoLoaderApp.show_roi_settings_dialog`
(main.py): after the settings dialog is accepted, a record whose name
collides with an existing one is rejected with an error log message and
the list is left untouched; otherwise the record is appended. -/
def show_roi_settings_commit (roi_list : List RoiType) (roi : RoiType) :
    List RoiType × Option String :=
  if roi.name ∈ roi_list.map RoiType.name then
    (roi_list, some ("ROI name: " ++ roi.name ++ " already exist"))
  else (roi_list ++ [roi], none)

/-- `RoiSettingsDialog.edit` (ui_components.py): on every text change the
dialog disables the OK button and logs an error whenever the entered name
is already a key of the active ROI collection, making the commit
impossible; otherwise OK is enabled.  Returns
`(ok_button_enabled, logged_error)`. -/
def roi_settings_edit (text : RoiName) (existing : List RoiName) :
    Bool × Option String :=
  if text ∈ existing then (false, some (text ++ " exists"))
  else (true, none)

/-! ## Persisted-result reload -/

/-- One entry of the saved metadata mapping
(`RoiLabelObject.to_meta`): `{name, index, item, angle, func}` where
`index` is the explicit 0-based row index assigned at save time. -/
structure MetaEntry where
  name : RoiName
  index : ℕ
  item : String
  angle : ℚ
  func : String
deriving DecidableEq

/-- The row-pairing loop of `VideoLoaderApp._reload` (main_gui.py):
`for i, (name, it) in enumerate(meta.items()): d = dat[i]` - the `i`-th
iterated metadata key receives matrix row `i` (positional pairing; the
stored `index` field of the entry is never read).  `dat[i]` raises
`IndexError` when the metadata has more entries than the matrix has rows,
modelled as `none`. -/
def reload_go (dat : List (List ℚ)) : ℕ → List (RoiName × MetaEntry) →
    Option (List (RoiName × List ℚ))
  | _, [] => some []
  | i, (name, _) :: rest =>
    match dat.get? i with
    | none => none
    | some row => (reload_go dat (i + 1) rest).map (fun tail => (name, row) :: tail)

/-- `VideoLoaderApp._reload`, restricted to the name-to-row association
it builds (which drives `plot_view.y_data[name]` and the reconstructed
`RoiRecord`s). -/
def reload_series (meta : List (RoiName × MetaEntry)) (dat : List (List ℚ)) :
    Option (List (RoiName × List ℚ)) :=
  reload_go dat 0 meta

/-- First-match association lookup (a Python dict access `meta[name]`,
over the file iteration order). -/
def lookupName : List (RoiName × α) → RoiName → Option α
  | [], _ => none
  | p :: rest, name => if p.1 = name then some p.2 else lookupName rest name

/-- `PixVizResult.get_index` (roi.py): `self.meta[name]['index']`. -/
def pix_get_index (meta : List (RoiName × MetaEntry)) (name : RoiName) : Option ℕ :=
  (lookupName meta name).map MetaEntry.index

/-- `PixVizResult.get_data` (roi.py) for a name argument:
`self.dat[self.get_index(name)]` - routing through the explicit stored
index field. -/
def pix_get_data (meta : List (RoiName × MetaEntry)) (dat : List (List ℚ))
    (name : RoiName) : Option (List ℚ) :=
  (pix_get_index meta name).bind (fun i => dat.get? i)

/-! ## Spec-side view-to-source mapping (for the refinement claim) -/

/-- The view-to-source mapping exactly as the specification words it:
`factor_w = Nw / Vw`, `factor_h = Nh / Vh`, then
`(left, right, top, bottom) = (int(l * factor_w), int((l + w) * factor_w),
int(t * factor_h), int((t + h) * factor_h))` with `int` truncating toward
zero.  Stated from the spec text, to be compared with the source-side
`roi_bounds` and `scale_factors`. -/
def specViewToSource (l t w h Vw Vh Nw Nh : ℚ) : ℤ × ℤ × ℤ × ℤ :=
  (pyInt (l * (Nw / Vw)), pyInt ((l + w) * (Nw / Vw)),
   pyInt (t * (Nh / Vh)), pyInt ((t + h) * (Nh / Vh)))

/-! ## Concrete fixtures for witnesses and counterexamples -/

/-- A concrete instantiation of the external rotation primitive (the
identity warp), used only to instantiate closed statements. -/
def rotId : RotFn := fun f _ _ => f

/-- A one-pixel BGR frame. -/
def frame1 : Frame := [[(10, 20, 30)]]

/-- An ROI covering the whole one-pixel frame at unit view size, with the
mean statistic and no rotation. -/
def roiA : RoiLabelObject := ⟨"A", ⟨0, 0, 1, 1⟩, 0, "mean"⟩

/-- An ROI with a zero-area rectangle (empty crop region). -/
def roiEmpty : RoiLabelObject := ⟨"E", ⟨0, 0, 0, 0⟩, 0, "mean"⟩

/-! ## Truncation lemmas -/

theorem pyInt_intCast (n : ℤ) : pyInt (n : ℚ) = n := by
  simp [pyInt, Rat.num_intCast, Rat.den_intCast, Int.tdiv_one]

theorem pyInt_zero : pyInt 0 = 0 := by
  simpa using pyInt_intCast 0

theorem pyInt_one : pyInt 1 = 1 := by
  simpa using pyInt_intCast 1

theorem pyInt_eq_floor_of_nonneg (q : ℚ) (h : 0 ≤ q) : pyInt q = ⌊q⌋ := by
  rw [Rat.floor_def, pyInt]
  exact Int.tdiv_eq_ediv (Rat.num_nonneg.mpr h) (Int.ofNat_nonneg q.den)

theorem pyInt_neg (q : ℚ) : pyInt (-q) = -pyInt q := by
  have hden : (-q).den = q.den := rfl
  simp [pyInt, Rat.neg_num, hden, Int.neg_tdiv]

/-- `pyInt` is truncation toward zero: floor on nonnegative inputs,
negated floor of the negation (i.e. ceiling) on negative inputs. -/
theorem pyInt_trunc (q : ℚ) : pyInt q = if 0 ≤ q then ⌊q⌋ else -⌊-q⌋ := by
  by_cases h : 0 ≤ q
  · simp [h, pyInt_eq_floor_of_nonneg q h]
  · have h2 : 0 ≤ -q := le_of_lt (neg_pos.mpr (lt_of_not_ge h))
    have := pyInt_eq_floor_of_nonneg (-q) h2
    rw [pyInt_neg] at this
    simp [h]
    omega

/-! ## Result-dictionary lemmas -/

theorem setCell_keys (proc : ProcMap) (n : RoiName) (i : ℕ) (v : ℚ) :
    (setCell proc n i v).map Prod.fst = proc.map Prod.fst := by
  induction proc with
  | nil => rfl
  | cons p rest ih =>
    by_cases h : p.1 = n <;> simp [setCell, h] at ih ⊢ <;> exact ih

theorem getSeriesP_setCell (proc : ProcMap) (n name : RoiName) (i : ℕ) (v : ℚ) :
    getSeriesP (setCell proc n i v) name =
      if n = name then (getSeriesP proc name).set i (some v)
      else getSeriesP proc name := by
  induction proc with
  | nil => by_cases h : n = name <;> simp [setCell, getSeriesP, h]
  | cons p rest ih =>
    by_cases hp : p.1 = n
    · by_cases hn : n = name
      · subst hn; subst hp
        simp [setCell, getSeriesP]
      · have hpname : ¬(p.1 = name) := by rw [hp]; exact hn
        simp [setCell, getSeriesP, hp, hn, hpname] at ih ⊢
        simpa [setCell, hn] using ih
    · by_cases hpname : p.1 = name
      · have hn : ¬(n = name) := by
          intro e; exact hp (by rw [hpname, e])
        have hn' : ¬(name = n) := fun e => hn e.symm
        simp [setCell, getSeriesP, hp, hpname, hn, hn']
      · simp [setCell, getSeriesP, hp, hpname] at ih ⊢
        simpa [setCell] using ih

theorem writeSig_keys (i : ℕ) (sig : List (RoiName × Option ℚ)) (proc : ProcMap) :
    (writeSig proc i sig).1.map Prod.fst = proc.map Prod.fst := by
  induction sig generalizing proc with
  | nil => rfl
  | cons nv rest ih =>
    obtain ⟨n, v⟩ := nv
    by_cases h : n ∈ proc.map Prod.fst
    · cases v with
      | some x =>
        simp only [writeSig, h, if_pos]
        rw [ih (setCell proc n i x), setCell_keys]
      | none => simp [writeSig, h]
    · simp [writeSig, h]

theorem writeSig_flag (i : ℕ) (sig : List (RoiName × Option ℚ)) (proc : ProcMap) :
    (writeSig proc i sig).2 = sigOK (proc.map Prod.fst) sig := by
  induction sig generalizing proc with
  | nil => rfl
  | cons nv rest ih =>
    obtain ⟨n, v⟩ := nv
    by_cases h : n ∈ proc.map Prod.fst
    · cases v with
      | some x =>
        simp only [writeSig, sigOK, h, if_pos]
        rw [ih (setCell proc n i x), setCell_keys]
      | none => simp [writeSig, sigOK, h]
    · simp [writeSig, sigOK, h]

theorem writeSig_length (i : ℕ) (sig : List (RoiName × Option ℚ)) (proc : ProcMap)
    (name : RoiName) :
    (getSeriesP (writeSig proc i sig).1 name).length = (getSeriesP proc name).length := by
  induction sig generalizing proc with
  | nil => rfl
  | cons nv rest ih =>
    obtain ⟨n, v⟩ := nv
    by_cases h : n ∈ proc.map Prod.fst
    · cases v with
      | some x =>
        simp only [writeSig, h, if_pos]
        rw [ih (setCell proc n i x), getSeriesP_setCell]
        by_cases hn : n = name <;> simp [hn]
      | none => simp [writeSig, h]
    · simp [writeSig, h]

theorem writeSig_cell_ne (i j : ℕ) (hij : j ≠ i) (sig : List (RoiName × Option ℚ))
    (proc : ProcMap) (name : RoiName) :
    cellAt (writeSig proc i sig).1 name j = cellAt proc name j := by
  induction sig generalizing proc with
  | nil => rfl
  | cons nv rest ih =>
    obtain ⟨n, v⟩ := nv
    by_cases h : n ∈ proc.map Prod.fst
    · cases v with
      | some x =>
        simp only [writeSig, h, if_pos]
        rw [ih (setCell proc n i x)]
        unfold cellAt
        rw [getSeriesP_setCell]
        by_cases hn : n = name
        · simp [hn, List.getElem?_set, Ne.symm hij]
        · simp [hn]
      | none => simp [writeSig, h]
    · simp [writeSig, h]

theorem writeSig_cell_eq (i : ℕ) (sig : List (RoiName × Option ℚ)) (proc : ProcMap)
    (name : RoiName) (c : Option ℚ) (hc : cellAt proc name i = some c) :
    cellAt (writeSig proc i sig).1 name i =
      some (sigCell (proc.map Prod.fst) name sig c) := by
  induction sig generalizing proc c with
  | nil => simpa [writeSig, sigCell] using hc
  | cons nv rest ih =>
    obtain ⟨n, v⟩ := nv
    by_cases h : n ∈ proc.map Prod.fst
    · cases v with
      | some x =>
        simp only [writeSig, sigCell, h, if_pos]
        have hlt : i < (getSeriesP proc name).length := by
          rcases List.getElem?_eq_some.mp hc with ⟨hl, _⟩
          exact hl
        have hcell : cellAt (setCell proc n i x) name i =
            some (if n = name then some x else c) := by
          unfold cellAt
          rw [getSeriesP_setCell]
          by_cases hn : n = name
          · subst hn; simp [List.getElem?_set, hlt]
          · simpa [hn] using hc
        rw [ih (setCell proc n i x) _ hcell, setCell_keys]
      | none => simpa [writeSig, sigCell, h] using hc
    · simpa [writeSig, sigCell, h] using hc

/-! ## Batch-loop lemmas -/

section RunLemmas

variable (rot : RotFn) (roisAt : ℕ → List RoiLabelObject)
variable (frames : ℕ → Option Frame) (view : ℚ × ℚ)

theorem runStep_keys (st : RunOut) (i : ℕ) :
    (runStep rot roisAt frames view st i).proc.map Prod.fst = st.proc.map Prod.fst := by
  cases hps : process_single_frame rot (roisAt i) (frames i) view with
  | none => simp [runStep, hps]
  | some r =>
    cases r with
    | ok sig => simp [runStep, hps, writeSig_keys]
    | error e => simp [runStep, hps]

theorem runStep_length (st : RunOut) (i : ℕ) (name : RoiName) :
    (getSeriesP (runStep rot roisAt frames view st i).proc name).length =
      (getSeriesP st.proc name).length := by
  cases hps : process_single_frame rot (roisAt i) (frames i) view with
  | none => simp [runStep, hps]
  | some r =>
    cases r with
    | ok sig => simp [runStep, hps, writeSig_length]
    | error e => simp [runStep, hps]

theorem runStep_cell_ne (st : RunOut) (i j : ℕ) (hij : j ≠ i) (name : RoiName) :
    cellAt (runStep rot roisAt frames view st i).proc name j = cellAt st.proc name j := by
  cases hps : process_single_frame rot (roisAt i) (frames i) view with
  | none => simp [runStep, hps]
  | some r =>
    cases r with
    | ok sig => simp [runStep, hps, writeSig_cell_ne i j hij]
    | error e => simp [runStep, hps]

theorem runStep_cell_eq (st : RunOut) (i : ℕ) (name : RoiName)
    (hc : cellAt st.proc name i = some none) :
    cellAt (runStep rot roisAt frames view st i).proc name i =
      some (iterCell rot roisAt frames view (st.proc.map Prod.fst) name i) := by
  cases hps : process_single_frame rot (roisAt i) (frames i) view with
  | none => simpa [runStep, iterCell, hps] using hc
  | some r =>
    cases r with
    | ok sig =>
      simp only [runStep, iterCell, hps]
      exact writeSig_cell_eq i sig st.proc name none hc
    | error e => simpa [runStep, iterCell, hps] using hc

theorem runStep_progress (st : RunOut) (i : ℕ) :
    (runStep rot roisAt frames view st i).progress =
      st.progress ++
        (if iterOK rot roisAt frames view (st.proc.map Prod.fst) i then [i] else []) := by
  cases hps : process_single_frame rot (roisAt i) (frames i) view with
  | none => simp [runStep, iterOK, hps]
  | some r =>
    cases r with
    | ok sig =>
      simp only [runStep, iterOK, hps, writeSig_flag]
      by_cases hok : sigOK (st.proc.map Prod.fst) sig = true <;> simp [hok]
    | error e => simp [runStep, iterOK, hps]

theorem runFrom_keys (L : List ℕ) (st : RunOut) :
    (runFrom rot roisAt frames view st L).proc.map Prod.fst = st.proc.map Prod.fst := by
  induction L generalizing st with
  | nil => rfl
  | cons j L ih =>
    show (runFrom rot roisAt frames view (runStep rot roisAt frames view st j) L).proc.map
        Prod.fst = _
    rw [ih, runStep_keys]

theorem runFrom_length (L : List ℕ) (st : RunOut) (name : RoiName) :
    (getSeriesP (runFrom rot roisAt frames view st L).proc name).length =
      (getSeriesP st.proc name).length := by
  induction L generalizing st with
  | nil => rfl
  | cons j L ih =>
    show (getSeriesP (runFrom rot roisAt frames view
        (runStep rot roisAt frames view st j) L).proc name).length = _
    rw [ih, runStep_length]

theorem runFrom_cell_not_mem (L : List ℕ) (st : RunOut) (name : RoiName) (i : ℕ)
    (h : i ∉ L) :
    cellAt (runFrom rot roisAt frames view st L).proc name i = cellAt st.proc name i := by
  induction L generalizing st with
  | nil => rfl
  | cons j L ih =>
    have hij : i ≠ j := fun e => h (e ▸ List.mem_cons_self j L)
    have hL : i ∉ L := fun hm => h (List.mem_cons_of_mem j hm)
    show cellAt (runFrom rot roisAt frames view
        (runStep rot roisAt frames view st j) L).proc name i = _
    rw [ih _ hL, runStep_cell_ne rot roisAt frames view st j i hij]

theorem runFrom_progress (L : List ℕ) (st : RunOut) :
    (runFrom rot roisAt frames view st L).progress =
      st.progress ++
        L.filter (fun i => iterOK rot roisAt frames view (st.proc.map Prod.fst) i) := by
  induction L generalizing st with
  | nil => simp [runFrom]
  | cons j L ih =>
    show (runFrom rot roisAt frames view (runStep rot roisAt frames view st j) L).progress = _
    rw [ih, runStep_keys, runStep_progress, List.filter_cons]
    by_cases hok : iterOK rot roisAt frames view (st.proc.map Prod.fst) j = true <;>
      simp [hok]

theorem runFrom_cell (L : List ℕ) (st : RunOut) (name : RoiName) (i : ℕ)
    (hmem : i ∈ L) (hnd : L.Nodup) (hc : cellAt st.proc name i = some none) :
    cellAt (runFrom rot roisAt frames view st L).proc name i =
      some (iterCell rot roisAt frames view (st.proc.map Prod.fst) name i) := by
  induction L generalizing st with
  | nil => cases hmem
  | cons j L ih =>
    rw [List.nodup_cons] at hnd
    rcases List.mem_cons.mp hmem with hij | hiL
    · subst hij
      show cellAt (runFrom rot roisAt frames view
          (runStep rot roisAt frames view st i) L).proc name i = _
      rw [runFrom_cell_not_mem rot roisAt frames view L _ name i hnd.1]
      exact runStep_cell_eq rot roisAt frames view st i name hc
    · have hij : i ≠ j := fun e => hnd.1 (e ▸ hiL)
      show cellAt (runFrom rot roisAt frames view
          (runStep rot roisAt frames view st j) L).proc name i = _
      rw [ih _ hiL hnd.2 (by rw [runStep_cell_ne rot roisAt frames view st j i hij]; exact hc),
        runStep_keys]

theorem prealloc_keys (rois : List RoiLabelObject) (F : ℕ) :
    (prealloc rois F).map Prod.fst = rois.map RoiLabelObject.name := by
  simp [prealloc, List.map_map, Function.comp]

theorem getSeriesP_prealloc (rois : List RoiLabelObject) (F : ℕ) (name : RoiName)
    (h : name ∈ rois.map RoiLabelObject.name) :
    getSeriesP (prealloc rois F) name = List.replicate F none := by
  induction rois with
  | nil => cases h
  | cons r rest ih =>
    by_cases hr : r.name = name
    · simp [prealloc, getSeriesP, hr]
    · rcases List.mem_cons.mp h with he | hm
      · exact absurd he.symm hr
      · simpa [prealloc, getSeriesP, hr] using ih hm

theorem prealloc_cell (rois : List RoiLabelObject) (F : ℕ) (name : RoiName) (i : ℕ)
    (h : name ∈ rois.map RoiLabelObject.name) (hi : i < F) :
    cellAt (prealloc rois F) name i = some none := by
  rw [cellAt, getSeriesP_prealloc rois F name h]
  simp [List.getElem?_replicate, hi]

theorem runProc_keys (initRois : List RoiLabelObject) (F : ℕ) :
    (runProc rot initRois roisAt frames F view).proc.map Prod.fst =
      initRois.map RoiLabelObject.name := by
  rw [runProc, runFrom_keys]
  exact prealloc_keys initRois F

theorem runProc_length (initRois : List RoiLabelObject) (F : ℕ) (name : RoiName)
    (h : name ∈ initRois.map RoiLabelObject.name) :
    (getSeriesP (runProc rot initRois roisAt frames F view).proc name).length = F := by
  rw [runProc, runFrom_length]
  show (getSeriesP (prealloc initRois F) name).length = F
  rw [getSeriesP_prealloc initRois F name h, List.length_replicate]

theorem runProc_cell (initRois : List RoiLabelObject) (F : ℕ) (name : RoiName) (i : ℕ)
    (h : name ∈ initRois.map RoiLabelObject.name) (hi : i < F) :
    cellAt (runProc rot initRois roisAt frames F view).proc name i =
      some (iterCell rot roisAt frames view (initRois.map RoiLabelObject.name) name i) := by
  rw [runProc]
  have := runFrom_cell rot roisAt frames view (List.range F) ⟨prealloc initRois F, []⟩
    name i (List.mem_range.mpr hi) (List.nodup_range F)
    (prealloc_cell initRois F name i h hi)
  rwa [show (⟨prealloc initRois F, []⟩ : RunOut).proc = prealloc initRois F from rfl,
    prealloc_keys] at this

theorem runProc_progress (initRois : List RoiLabelObject) (F : ℕ) :
    (runProc rot initRois roisAt frames F view).progress =
      (List.range F).filter
        (fun i => iterOK rot roisAt frames view (initRois.map RoiLabelObject.name) i) := by
  rw [runProc, runFrom_progress]
  simp [prealloc_keys]

end RunLemmas

/-! ## Per-frame sampler lemmas -/

theorem sigCell_isSome_acc (K : List RoiName) (name : RoiName)
    (sig : List (RoiName × Option ℚ)) (acc : Option ℚ)
    (hok : sigOK K sig = true) (ha : acc.isSome) :
    (sigCell K name sig acc).isSome := by
  induction sig generalizing acc with
  | nil => simpa [sigCell] using ha
  | cons nv rest ih =>
    obtain ⟨n, v⟩ := nv
    by_cases hK : n ∈ K
    · cases v with
      | some x =>
        simp only [sigOK, hK, if_pos] at hok
        simp only [sigCell, hK, if_pos]
        refine ih _ hok ?_
        by_cases hn : n = name <;> simp [hn, ha]
      | none => simp [sigOK, hK] at hok
    · simp [sigOK, hK] at hok

theorem sigCell_isSome_mem (K : List RoiName) (name : RoiName)
    (sig : List (RoiName × Option ℚ)) (acc : Option ℚ)
    (hok : sigOK K sig = true) (hmem : name ∈ sig.map Prod.fst) :
    (sigCell K name sig acc).isSome := by
  induction sig generalizing acc with
  | nil => cases hmem
  | cons nv rest ih =>
    obtain ⟨n, v⟩ := nv
    by_cases hK : n ∈ K
    · cases v with
      | some x =>
        simp only [sigOK, hK, if_pos] at hok
        simp only [sigCell, hK, if_pos]
        by_cases hrest : name ∈ rest.map Prod.fst
        · exact ih _ hok hrest
        · have hn : n = name := by
            rcases List.mem_cons.mp hmem with he | hm
            · exact he.symm
            · exact absurd hm hrest
          exact sigCell_isSome_acc K name rest _ hok (by simp [hn])
      | none => simp [sigOK, hK] at hok
    · simp [sigOK, hK] at hok

theorem roiLoop_names (rot : RotFn) (frame : Frame) (fw fh : ℚ)
    (rois : List RoiLabelObject) (sig : List (RoiName × Option ℚ))
    (h : roiLoop rot frame fw fh rois = Except.ok sig) :
    sig.map Prod.fst = rois.map RoiLabelObject.name := by
  induction rois generalizing sig with
  | nil =>
    simp only [roiLoop] at h
    cases h; rfl
  | cons roi rest ih =>
    simp only [roiLoop] at h
    cases hcp : compute_pixel_intensity (roi_region rot frame fw fh roi) roi.func with
    | error e => rw [hcp] at h; cases h
    | ok v =>
      rw [hcp] at h
      cases hrl : roiLoop rot frame fw fh rest with
      | error e => rw [hrl] at h; cases h
      | ok s =>
        rw [hrl] at h
        cases h
        simp [ih s hrl]

theorem roiLoop_error_of_empty (rot : RotFn) (frame : Frame) (fw fh : ℚ)
    (rois : List RoiLabelObject) (roi : RoiLabelObject) (hmem : roi ∈ rois)
    (hempty : (roi_region rot frame fw fh roi).flatten = []) :
    ∃ e, roiLoop rot frame fw fh rois = Except.error e := by
  induction rois with
  | nil => cases hmem
  | cons r rest ih =>
    rcases List.mem_cons.mp hmem with he | hm
    · subst he
      refine ⟨PyErr.cvError, ?_⟩
      simp [roiLoop, compute_pixel_intensity, hempty]
    · cases hcp : compute_pixel_intensity (roi_region rot frame fw fh r) r.func with
      | error e => exact ⟨e, by simp [roiLoop, hcp]⟩
      | ok v =>
        rcases ih hm with ⟨e, herr⟩
        exact ⟨e, by simp [roiLoop, hcp, herr]⟩

theorem psf_ok_names (rot : RotFn) (rois : List RoiLabelObject)
    (readResult : Option Frame) (view : ℚ × ℚ) (sig : List (RoiName × Option ℚ))
    (h : process_single_frame rot rois readResult view = some (Except.ok sig)) :
    sig.map Prod.fst = rois.map RoiLabelObject.name := by
  cases readResult with
  | none => cases h
  | some raw =>
    by_cases hv : view.1 = 0 ∨ view.2 = 0
    · simp [process_single_frame, hv] at h
    · simp only [process_single_frame, hv, if_false, if_neg hv, Option.some.injEq] at h
      exact roiLoop_names rot (bgr2rgb raw) _ _ rois sig h

/-! ## Concrete evaluation helpers -/

theorem roi_region_roiEmpty (rot : RotFn) (f : Frame) (fw fh : ℚ) :
    roi_region rot f fw fh roiEmpty = [] := by
  simp [roi_region, roiEmpty, roi_bounds, RectF.bottom, RectF.right, pyInt_zero,
    crop_frame, pySlice, pyBound]

theorem psf_frame1_roiEmpty_first (rest : List RoiLabelObject) :
    process_single_frame rotId (roiEmpty :: rest) (some frame1) (1, 1) =
      some (Except.error PyErr.cvError) := by
  simp [process_single_frame, roiLoop, compute_pixel_intensity, roi_region_roiEmpty]

theorem psf_frame1_roiA :
    process_single_frame rotId [roiA] (some frame1) (1, 1) =
      some (Except.ok [("A", some (listMean [grayVal (30, 20, 10)]))]) := by
  simp [process_single_frame, frame1, bgr2rgb, scale_factors, frame_width, frame_height,
    roiLoop, roiA, roi_region, roi_bounds, RectF.bottom, RectF.right, pyInt_zero, pyInt_one,
    crop_frame, pySlice, pyBound, compute_pixel_intensity, rotId]

/-! ## Claim C3 -/

/-- C3: the view-to-source coordinate mapping of `process_single_frame`
uses the two independent scale factors `factor_w = Nw / Vw` and
`factor_h = Nh / Vh` and produces the bounds
`(int(l * factor_w), int((l + w) * factor_w), int(t * factor_h),
int((t + h) * factor_h))`, where `int` truncates toward zero rather than
rounding to nearest (the source-side `scale_factors`/`roi_bounds`
coincide with the spec-side `specViewToSource`, and `pyInt` is
truncation toward zero). -/
theorem c3_view_to_source_mapping (l t w h Vw Vh : ℚ) (hVw : 0 < Vw) (hVh : 0 < Vh)
    (raw : Frame) :
    (let fs := scale_factors raw (Vw, Vh)
     let b := roi_bounds ⟨l, t, w, h⟩ fs.1 fs.2
     (b.2.2.1, b.2.2.2, b.1, b.2.1)) =
      specViewToSource l t w h Vw Vh (frame_width raw) (frame_height raw)
    ∧ (∀ q : ℚ, pyInt q = if 0 ≤ q then ⌊q⌋ else -⌊-q⌋) :=
  ⟨rfl, pyInt_trunc⟩

/-- Witness for C3 at a concrete rectangle, view size and frame. -/
theorem c3_witness :
    (0 : ℚ) < 2 ∧ (0 : ℚ) < 3 ∧
    ((let fs := scale_factors frame1 (2, 3)
      let b := roi_bounds ⟨1, 2, 3, 4⟩ fs.1 fs.2
      (b.2.2.1, b.2.2.2, b.1, b.2.1)) =
        specViewToSource 1 2 3 4 2 3 (frame_width frame1) (frame_height frame1)
     ∧ (∀ q : ℚ, pyInt q = if 0 ≤ q then ⌊q⌋ else -⌊-q⌋)) :=
  ⟨by norm_num, by norm_num,
   c3_view_to_source_mapping 1 2 3 4 2 3 (by norm_num) (by norm_num) frame1⟩

/-! ## Claim C8 -/

/-- C8: a realtime tick is a no-op when no ROIs are committed or while a
rectangle-drawing gesture is in progress: the tick emits no sample event
and leaves the whole realtime state (capture position and plot buffers)
unchanged. -/
theorem c8_idle_tick_noop (rot : RotFn) (rois : List RoiLabelObject) (drawing_roi : Bool)
    (frames : ℕ → Option Frame) (view : ℚ × ℚ) (realtimeProc : Bool) (st : RtState)
    (h : rois = [] ∨ drawing_roi = true) :
    realtime_tick rot rois drawing_roi frames view realtimeProc st = (st, none) := by
  rcases h with h | h <;> subst h <;> simp [realtime_tick, video_view_process_frame]

/-- Witness for C8: a tick during a drawing gesture with one committed
ROI changes nothing. -/
theorem c8_witness :
    (([roiA] : List RoiLabelObject) = [] ∨ true = true)
    ∧ realtime_tick rotId [roiA] true (fun _ => some frame1) (1, 1) true
        ⟨0, [("A", [])], [("A", [])]⟩ = (⟨0, [("A", [])], [("A", [])]⟩, none) :=
  ⟨Or.inr rfl,
   c8_idle_tick_noop rotId [roiA] true (fun _ => some frame1) (1, 1) true
     ⟨0, [("A", [])], [("A", [])]⟩ (Or.inr rfl)⟩

/-! ## Claim C9 -/

/-- C9: committing an ROI whose name is already present in the active set
is rejected with a user-visible error and the active set is unchanged; on
the dialog side the OK button is disabled and an error is logged as soon
as the duplicate name is entered. -/
theorem c9_duplicate_name_rejected (roi_list : List RoiType) (roi : RoiType)
    (h : roi.name ∈ roi_list.map RoiType.name) :
    (show_roi_settings_commit roi_list roi).1 = roi_list
    ∧ (show_roi_settings_commit roi_list roi).2.isSome = true
    ∧ (roi_settings_edit roi.name (roi_list.map RoiType.name)).1 = false
    ∧ (roi_settings_edit roi.name (roi_list.map RoiType.name)).2.isSome = true := by
  simp [show_roi_settings_commit, roi_settings_edit, h]

/-- Witness for C9: committing a second ROI named `r` against an active
set already holding an ROI named `r`. -/
theorem c9_witness :
    (RoiType.name ⟨"r", ⟨0, 0, 1, 1⟩, "mean"⟩ ∈
      List.map RoiType.name [⟨"r", ⟨2, 2, 3, 3⟩, "median"⟩])
    ∧ ((show_roi_settings_commit [⟨"r", ⟨2, 2, 3, 3⟩, "median"⟩] ⟨"r", ⟨0, 0, 1, 1⟩, "mean"⟩).1 =
         [⟨"r", ⟨2, 2, 3, 3⟩, "median"⟩]
       ∧ (show_roi_settings_commit [⟨"r", ⟨2, 2, 3, 3⟩, "median"⟩] ⟨"r", ⟨0, 0, 1, 1⟩, "mean"⟩).2.isSome = true
       ∧ (roi_settings_edit (RoiType.name ⟨"r", ⟨0, 0, 1, 1⟩, "mean"⟩)
            (List.map RoiType.name [⟨"r", ⟨2, 2, 3, 3⟩, "median"⟩])).1 = false
       ∧ (roi_settings_edit (RoiType.name ⟨"r", ⟨0, 0, 1, 1⟩, "mean"⟩)
            (List.map RoiType.name [⟨"r", ⟨2, 2, 3, 3⟩, "median"⟩])).2.isSome = true) :=
  ⟨by simp, c9_duplicate_name_rejected [⟨"r", ⟨2, 2, 3, 3⟩, "median"⟩]
    ⟨"r", ⟨0, 0, 1, 1⟩, "mean"⟩ (by simp)⟩

/-! ## Claim C10 -/

/-- C10: on a valid nonempty image, any statistic string other than
`mean` or `median` makes `compute_pixel_intensity` fall through both
branches and return Python `None` (no exception, no float). -/
theorem c10_unrecognized_statistic (image : Frame) (himg : image.flatten.isEmpty = false)
    (func : String) (h1 : func ≠ "mean") (h2 : func ≠ "median") :
    compute_pixel_intensity image func = Except.ok none := by
  simp [compute_pixel_intensity, himg, h1, h2]

/-- Witness for C10: the statistic string `max` on a one-pixel image. -/
theorem c10_witness :
    ([[((1, 2, 3) : Pixel)]] : Frame).flatten.isEmpty = false
    ∧ ("max" : String) ≠ "mean" ∧ ("max" : String) ≠ "median"
    ∧ compute_pixel_intensity [[(1, 2, 3)]] "max" = Except.ok none :=
  ⟨rfl, by decide, by decide,
   c10_unrecognized_statistic [[(1, 2, 3)]] rfl "max" (by decide) (by decide)⟩

/-! ## Claim C1 -/

/-- C1: during a batch scan over frames `0..F-1`, an index whose read
fails is a no-op (the preallocated series keeps NaN at that column for
every ROI) and the scan continues: the run still produces one series of
length `F` per ROI, with a stored value at every index whose iteration
completed successfully (i.e. every index that reached its progress
emission). -/
theorem c1_batch_read_failure_noop (rot : RotFn) (rois : List RoiLabelObject)
    (frames : ℕ → Option Frame) (F : ℕ) (view : ℚ × ℚ) (name : RoiName)
    (hname : name ∈ rois.map RoiLabelObject.name) (i : ℕ) (hi : i < F) :
    (getSeriesP (run_fixed rot rois frames F view).proc name).length = F
    ∧ (frames i = none →
        cellAt (run_fixed rot rois frames F view).proc name i = some none)
    ∧ (i ∈ (run_fixed rot rois frames F view).progress →
        ∃ q : ℚ, cellAt (run_fixed rot rois frames F view).proc name i = some (some q)) := by
  refine ⟨runProc_length rot (fun _ => rois) frames view rois F name hname, ?_, ?_⟩
  · intro hfail
    rw [show run_fixed rot rois frames F view =
          runProc rot rois (fun _ => rois) frames F view from rfl,
      runProc_cell rot (fun _ => rois) frames view rois F name i hname hi]
    simp [iterCell, process_single_frame, hfail]
  · intro hprog
    rw [show run_fixed rot rois frames F view =
          runProc rot rois (fun _ => rois) frames F view from rfl] at hprog ⊢
    rw [runProc_progress rot (fun _ => rois) frames view rois F, List.mem_filter] at hprog
    have hO := hprog.2
    rw [runProc_cell rot (fun _ => rois) frames view rois F name i hname hi]
    cases hps : process_single_frame rot rois (frames i) view with
    | none => simp [iterOK, hps] at hO
    | some r =>
      cases r with
      | error e => simp [iterOK, hps] at hO
      | ok sig =>
        simp only [iterOK, hps] at hO
        have hnames := psf_ok_names rot rois (frames i) view sig hps
        have hms : name ∈ sig.map Prod.fst := by rw [hnames]; exact hname
        have hsome := sigCell_isSome_mem (rois.map RoiLabelObject.name) name sig none hO hms
        rcases Option.isSome_iff_exists.mp hsome with ⟨q, hq⟩
        exact ⟨q, by simp [iterCell, hps, hq]⟩

/-- Witness for C1: a two-frame scan whose second read fails. -/
theorem c1_witness :
    ("A" ∈ [roiA].map RoiLabelObject.name) ∧ 1 < 2
    ∧ ((getSeriesP (run_fixed rotId [roiA]
          (fun i => if i = 0 then some frame1 else none) 2 (1, 1)).proc "A").length = 2
      ∧ ((fun i => if i = 0 then some frame1 else none) 1 = none →
          cellAt (run_fixed rotId [roiA]
            (fun i => if i = 0 then some frame1 else none) 2 (1, 1)).proc "A" 1 = some none)
      ∧ (1 ∈ (run_fixed rotId [roiA]
            (fun i => if i = 0 then some frame1 else none) 2 (1, 1)).progress →
          ∃ q : ℚ, cellAt (run_fixed rotId [roiA]
            (fun i => if i = 0 then some frame1 else none) 2 (1, 1)).proc "A" 1 =
              some (some q))) :=
  ⟨by simp [roiA], by decide,
   c1_batch_read_failure_noop rotId [roiA] (fun i => if i = 0 then some frame1 else none)
     2 (1, 1) "A" (by simp [roiA]) 1 (by decide)⟩

/-! ## Claim C2 -/

/-- C2 counterexample: with two ROIs, the first of which has an empty
crop region, the per-frame sampler raises (`cv2.error` propagates out of
`process_single_frame`, which has no per-ROI `try`): it does not return a
mapping in which the bad ROI is NaN and the remaining ROI is computed. -/
theorem c2_counterexample :
    process_single_frame rotId [roiEmpty, roiA] (some frame1) (1, 1) =
      some (Except.error PyErr.cvError)
    ∧ ∀ sig, process_single_frame rotId [roiEmpty, roiA] (some frame1) (1, 1) ≠
        some (Except.ok sig) := by
  refine ⟨psf_frame1_roiEmpty_first [roiA], ?_⟩
  intro sig hcontra
  rw [psf_frame1_roiEmpty_first [roiA]] at hcontra
  cases hcontra

/-- C2 amended: an exception while computing one ROI propagates out of
the per-frame sampler (no per-ROI boundary exists), so the values of the
remaining ROIs for that frame are not returned; the exception is caught
one level up, at the per-frame boundary of `FrameProcessor.run`, leaving
the whole frame column NaN for every ROI while the scan continues to a
full-length series. -/
theorem c2_amended_per_frame_catch (rot : RotFn) (rois : List RoiLabelObject)
    (frames : ℕ → Option Frame) (F : ℕ) (view : ℚ × ℚ) (i : ℕ) (hi : i < F)
    (name : RoiName) (hname : name ∈ rois.map RoiLabelObject.name) (e : PyErr)
    (herr : process_single_frame rot rois (frames i) view = some (Except.error e)) :
    cellAt (run_fixed rot rois frames F view).proc name i = some none
    ∧ (getSeriesP (run_fixed rot rois frames F view).proc name).length = F := by
  constructor
  · rw [show run_fixed rot rois frames F view =
          runProc rot rois (fun _ => rois) frames F view from rfl,
      runProc_cell rot (fun _ => rois) frames view rois F name i hname hi]
    simp [iterCell, herr]
  · exact runProc_length rot (fun _ => rois) frames view rois F name hname

/-- Witness for C2 (amended): a one-frame scan over the two-ROI set whose
first ROI raises; both columns stay NaN and the series is full length. -/
theorem c2_amended_witness :
    0 < 1 ∧ ("A" ∈ [roiEmpty, roiA].map RoiLabelObject.name)
    ∧ process_single_frame rotId [roiEmpty, roiA] ((fun _ => some frame1) 0) (1, 1) =
        some (Except.error PyErr.cvError)
    ∧ (cellAt (run_fixed rotId [roiEmpty, roiA] (fun _ => some frame1) 1 (1, 1)).proc "A" 0 =
         some none
      ∧ (getSeriesP (run_fixed rotId [roiEmpty, roiA]
          (fun _ => some frame1) 1 (1, 1)).proc "A").length = 1) :=
  ⟨by decide, by simp [roiA, roiEmpty],
   psf_frame1_roiEmpty_first [roiA],
   c2_amended_per_frame_catch rotId [roiEmpty, roiA] (fun _ => some frame1) 1 (1, 1) 0
     (by decide) "A" (by simp [roiA, roiEmpty]) PyErr.cvError
     (psf_frame1_roiEmpty_first [roiA])⟩

/-! ## Claim C4 -/

/-- C4 counterexample: an empty crop region does not yield NaN from
`compute_pixel_intensity`; it raises (`cv2.cvtColor` rejects an empty
array), for both statistics, and the per-frame sampler propagates the
exception. -/
theorem c4_counterexample :
    compute_pixel_intensity [] "mean" = Except.error PyErr.cvError
    ∧ compute_pixel_intensity [] "median" = Except.error PyErr.cvError
    ∧ process_single_frame rotId [roiEmpty] (some frame1) (1, 1) =
        some (Except.error PyErr.cvError) :=
  ⟨rfl, rfl, psf_frame1_roiEmpty_first []⟩

/-- C4 amended: for either statistic, an ROI whose crop region is empty
makes `compute_pixel_intensity` raise `cv2.error`; in a batch run the
exception is caught at the per-frame boundary, so that ROI's sample for
the frame (and every other ROI's sample for the same frame) stays NaN
and no exception escapes the scan. -/
theorem c4_amended_empty_region_nan (rot : RotFn) (rois : List RoiLabelObject)
    (frames : ℕ → Option Frame) (F : ℕ) (view : ℚ × ℚ) (i : ℕ) (hi : i < F)
    (f : Frame) (hf : frames i = some f) (hv1 : view.1 ≠ 0) (hv2 : view.2 ≠ 0)
    (roi : RoiLabelObject) (hroi : roi ∈ rois)
    (hempty : (roi_region rot (bgr2rgb f) (scale_factors (bgr2rgb f) view).1
        (scale_factors (bgr2rgb f) view).2 roi).flatten = [])
    (name : RoiName) (hname : name ∈ rois.map RoiLabelObject.name) :
    cellAt (run_fixed rot rois frames F view).proc name i = some none
    ∧ (getSeriesP (run_fixed rot rois frames F view).proc name).length = F := by
  rcases roiLoop_error_of_empty rot (bgr2rgb f) (scale_factors (bgr2rgb f) view).1
    (scale_factors (bgr2rgb f) view).2 rois roi hroi hempty with ⟨e, he⟩
  have herr : process_single_frame rot rois (frames i) view = some (Except.error e) := by
    simp [process_single_frame, hf, hv1, hv2, he]
  constructor
  · rw [show run_fixed rot rois frames F view =
          runProc rot rois (fun _ => rois) frames F view from rfl,
      runProc_cell rot (fun _ => rois) frames view rois F name i hname hi]
    simp [iterCell, herr]
  · exact runProc_length rot (fun _ => rois) frames view rois F name hname

/-- Witness for C4 (amended): a zero-area ROI in a one-frame scan; its
sample is NaN and the scan produces a full-length series. -/
theorem c4_amended_witness :
    0 < 1 ∧ (fun _ => some frame1) 0 = some frame1
    ∧ ((1, 1) : ℚ × ℚ).1 ≠ 0 ∧ ((1, 1) : ℚ × ℚ).2 ≠ 0
    ∧ roiEmpty ∈ [roiEmpty]
    ∧ (roi_region rotId (bgr2rgb frame1)
        (scale_factors (bgr2rgb frame1) (1, 1)).1
        (scale_factors (bgr2rgb frame1) (1, 1)).2 roiEmpty).flatten = []
    ∧ ("E" ∈ [roiEmpty].map RoiLabelObject.name)
    ∧ (cellAt (run_fixed rotId [roiEmpty] (fun _ => some frame1) 1 (1, 1)).proc "E" 0 =
         some none
      ∧ (getSeriesP (run_fixed rotId [roiEmpty]
          (fun _ => some frame1) 1 (1, 1)).proc "E").length = 1) :=
  ⟨by decide, rfl, one_ne_zero, one_ne_zero, List.mem_singleton.mpr rfl,
   by rw [roi_region_roiEmpty]; rfl, by simp [roiEmpty],
   c4_amended_empty_region_nan rotId [roiEmpty] (fun _ => some frame1) 1 (1, 1) 0
     (by decide) frame1 rfl one_ne_zero one_ne_zero roiEmpty (List.mem_singleton.mpr rfl)
     (by rw [roi_region_roiEmpty]; rfl) "E" (by simp [roiEmpty])⟩

/-! ## Claim C5 -/

/-- ROI-dictionary history with no mutation after start. -/
def roisHist1 : ℕ → List RoiLabelObject := fun _ => [roiA]

/-- ROI-dictionary history in which the only ROI is deleted after the
first loop iteration; identical to `roisHist1` at start time. -/
def roisHist2 : ℕ → List RoiLabelObject := fun i => if i = 0 then [roiA] else []

/-- A capture whose reads always succeed. -/
def framesConst : ℕ → Option Frame := fun _ => some frame1

/-- C5 counterexample: two batch runs constructed from the same
start-time ROI collection but with different mutation histories after
start produce different outputs (`FrameProcessor` stores a reference to
the shared dictionary, not a snapshot): deleting the ROI after iteration
0 leaves NaN in column 1, while the unmutated run stores a value there. -/
theorem c5_counterexample :
    roisHist1 0 = roisHist2 0
    ∧ cellAt (runProc rotId [roiA] roisHist1 framesConst 2 (1, 1)).proc "A" 1 ≠
        cellAt (runProc rotId [roiA] roisHist2 framesConst 2 (1, 1)).proc "A" 1 := by
  refine ⟨rfl, ?_⟩
  have hK : [roiA].map RoiLabelObject.name = ["A"] := rfl
  rw [runProc_cell rotId roisHist1 framesConst (1, 1) [roiA] 2 "A" 1 (by simp [roiA])
      (by decide),
    runProc_cell rotId roisHist2 framesConst (1, 1) [roiA] 2 "A" 1 (by simp [roiA])
      (by decide), hK]
  have e1 : iterCell rotId roisHist1 framesConst (1, 1) ["A"] "A" 1 =
      some (listMean [grayVal (30, 20, 10)]) := by
    simp only [iterCell, roisHist1, framesConst]
    rw [psf_frame1_roiA]
    simp [sigCell]
  have e2 : iterCell rotId roisHist2 framesConst (1, 1) ["A"] "A" 1 = none := by
    simp [iterCell, roisHist2, framesConst, process_single_frame, roiLoop, sigCell]
  rw [e1, e2]
  simp

/-- C5 amended: the scanner does not snapshot the shared ROI mapping (it
reads it live on every iteration, so mutations after start do affect an
in-flight run); what is fixed at construction time is the rest: the total
frame count, the view size, and - from the construction-time dictionary -
the set of output series and their full length, for every mutation
history. -/
theorem c5_amended_construction_capture (rot : RotFn) (initRois : List RoiLabelObject)
    (roisAt : ℕ → List RoiLabelObject) (frames : ℕ → Option Frame) (F : ℕ)
    (view : ℚ × ℚ) :
    (runProc rot initRois roisAt frames F view).proc.map Prod.fst =
      initRois.map RoiLabelObject.name
    ∧ ∀ name, name ∈ initRois.map RoiLabelObject.name →
        (getSeriesP (runProc rot initRois roisAt frames F view).proc name).length = F :=
  ⟨runProc_keys rot roisAt frames view initRois F,
   fun name h => runProc_length rot roisAt frames view initRois F name h⟩

/-! ## Claim C6 -/

/-- Metadata entry for ROI `A`, stored row index 1. -/
def metaA : MetaEntry := ⟨"A", 1, "item", 0, "mean"⟩

/-- Metadata entry for ROI `B`, stored row index 0. -/
def metaB : MetaEntry := ⟨"B", 0, "item", 0, "mean"⟩

/-- C6: evaluation at the failing input.  With the metadata file iterated
in the order `A` (stored index 1), `B` (stored index 0) - exactly what
`json.dump(..., sort_keys=True)` produces for ROIs committed as `B` then
`A` - `VideoLoaderApp._reload` pairs `A` with row 0 by iteration
position, even though `A`'s stored index field is 1 and the index-routing
accessor `PixVizResult.get_data` returns row 1 for `A`; permuting the
iteration order of the same metadata mapping changes `_reload`'s
name-to-row association. -/
theorem c6_reload_ignores_index :
    reload_series [("A", metaA), ("B", metaB)] [[10], [20]] =
        some [("A", [10]), ("B", [20])]
    ∧ pix_get_index [("A", metaA), ("B", metaB)] "A" = some 1
    ∧ pix_get_data [("A", metaA), ("B", metaB)] [[10], [20]] "A" = some [20]
    ∧ reload_series [("B", metaB), ("A", metaA)] [[10], [20]] =
        some [("B", [10]), ("A", [20])] :=
  ⟨rfl, rfl, rfl, rfl⟩

/-! ## Claim C7 -/

/-- A capture whose read succeeds at iteration 0 and fails afterwards. -/
def framesFail1 : ℕ → Option Frame := fun i => if i = 0 then some frame1 else none

/-- C7 counterexample: in a two-frame run whose second read fails, the
progress events are `[0]`, not one event per loop iteration: the failed
iteration emits no progress event (`progress.emit` sits inside the `try`
after the writes, which the failure skips). -/
theorem c7_counterexample :
    (run_fixed rotId [roiA] framesFail1 2 (1, 1)).progress = [0]
    ∧ (run_fixed rotId [roiA] framesFail1 2 (1, 1)).progress ≠ List.range 2 := by
  have hf0 : framesFail1 0 = some frame1 := rfl
  have h0 : iterOK rotId (fun _ => [roiA]) framesFail1 (1, 1) ["A"] 0 = true := by
    simp only [iterOK, hf0]
    rw [psf_frame1_roiA]
    simp [sigOK]
  have h1 : iterOK rotId (fun _ => [roiA]) framesFail1 (1, 1) ["A"] 1 = false := by
    simp [iterOK, framesFail1, process_single_frame]
  have hK : [roiA].map RoiLabelObject.name = ["A"] := rfl
  have hp : (run_fixed rotId [roiA] framesFail1 2 (1, 1)).progress = [0] := by
    rw [show run_fixed rotId [roiA] framesFail1 2 (1, 1) =
          runProc rotId [roiA] (fun _ => [roiA]) framesFail1 2 (1, 1) from rfl,
      runProc_progress rotId (fun _ => [roiA]) framesFail1 (1, 1) [roiA] 2, hK,
      show List.range 2 = [0, 1] by decide]
    simp only [List.filter_cons, List.filter_nil]
    rw [h0, h1]
    simp
  exact ⟨hp, by rw [hp]; decide⟩

/-- C7 amended: within one batch run the frame indices are processed in
increasing order `0..F-1` and a progress event carrying the index is
emitted exactly once per iteration that completes without an exception,
in that same increasing order; an iteration whose read fails (or that
raises while processing or writing) emits no progress event. -/
theorem c7_amended_progress_successful_only (rot : RotFn) (rois : List RoiLabelObject)
    (frames : ℕ → Option Frame) (F : ℕ) (view : ℚ × ℚ) :
    (run_fixed rot rois frames F view).progress =
      (List.range F).filter
        (fun i => iterOK rot (fun _ => rois) frames view (rois.map RoiLabelObject.name) i)
    ∧ List.Sorted (· < ·) (run_fixed rot rois frames F view).progress
    ∧ ∀ i, i ∈ (run_fixed rot rois frames F view).progress → i < F ∧ frames i ≠ none := by
  have hpp : (run_fixed rot rois frames F view).progress =
      (List.range F).filter
        (fun i => iterOK rot (fun _ => rois) frames view (rois.map RoiLabelObject.name) i) :=
    runProc_progress rot (fun _ => rois) frames view rois F
  refine ⟨hpp, ?_, ?_⟩
  · rw [hpp]
    exact List.Pairwise.filter _ (List.pairwise_lt_range F)
  · intro i hi
    rw [hpp, List.mem_filter, List.mem_range] at hi
    refine ⟨hi.1, ?_⟩
    intro hfail
    have := hi.2
    simp [iterOK, process_single_frame, hfail] at this

end PixViz
